import Mathlib

/-!
Verification of the FOREX trading bot's decision-and-risk engine against its
design specification.

The Python sources (`indicators.py`, `main_bot.py`, `config.py`,
`data_fetch.py`) are shallowly embedded below: pandas Series become
functions `ℕ → Option ℚ` (`none` models `NaN`/undefined entries), floats
become exact rationals, and the stateful controller loop becomes an explicit
state-passing step function.  External collaborators (broker API, signal
engine from `strategy.py`, account balance) are passed in as an environment
record, mirroring the spec's "external collaborators" section.
-/

/- ======================  indicators.py : compute_rsi  ====================== -/

/-- `data["close"].diff()`: close-to-close delta; `NaN` (here `none`) at index 0
and outside the series range. -/
def deltaF (cs : List ℚ) (i : ℕ) : Option ℚ :=
  if i = 0 then none
  else
    match cs.get? (i - 1), cs.get? i with
    | some a, some b => some (b - a)
    | _, _ => none

/-- `gain = delta.clip(lower=0)`. -/
def gainF (cs : List ℚ) (i : ℕ) : Option ℚ :=
  (deltaF cs i).map (fun d => max d 0)

/-- `loss = -delta.clip(upper=0)`. -/
def lossF (cs : List ℚ) (i : ℕ) : Option ℚ :=
  (deltaF cs i).map (fun d => -(min d 0))

/-- Collect a list of optional values; `none` as soon as one entry is `none`
(the pandas rule that a window containing `NaN` yields `NaN`). -/
def optTraverse {α β : Type} (f : α → Option β) : List α → Option (List β)
  | [] => some []
  | a :: l =>
    match f a, optTraverse f l with
    | some b, some out => some (b :: out)
    | _, _ => none

/-- `series.rolling(window=p).mean()`: trailing mean over the window
`[i+1-p, i]`; `NaN` while the window is not full or when any entry in the
window is `NaN` (pandas `min_periods` defaults to the window size). -/
def rollingMeanF (p : ℕ) (f : ℕ → Option ℚ) (i : ℕ) : Option ℚ :=
  if i + 1 < p then none
  else (optTraverse (fun k => f (i + 1 - p + k)) (List.range p)).map (fun l => l.sum / (p : ℚ))

/-- `compute_rsi` from `indicators.py`:
`rs = avg_gain / avg_loss.replace(0, 1e-10)` and `rsi = 100 - 100/(1+rs)`
(`NaN` inputs propagate, as in pandas). -/
def compute_rsi (cs : List ℚ) (p : ℕ) (i : ℕ) : Option ℚ :=
  (rollingMeanF p (gainF cs) i).bind (fun g =>
    (rollingMeanF p (lossF cs) i).map (fun l =>
      100 - 100 / (1 + g / (if l = 0 then 1 / 10 ^ 10 else l))))

/- ======  helper lemmas about `optTraverse`  ====== -/

lemma optTraverse_none_of_head_none {α β : Type} (f : α → Option β) (a : α) (l : List α)
    (h : f a = none) : optTraverse f (a :: l) = none := by
  simp [optTraverse, h]

lemma optTraverse_isSome_of_forall {α β : Type} (f : α → Option β) (l : List α)
    (h : ∀ a ∈ l, (f a).isSome) : ∃ out, optTraverse f l = some out := by
  induction l with
  | nil => exact ⟨[], rfl⟩
  | cons a l ih =>
    obtain ⟨b, hb⟩ := Option.isSome_iff_exists.mp (h a (List.mem_cons_self a l))
    obtain ⟨out, hout⟩ := ih (fun x hx => h x (List.mem_cons_of_mem a hx))
    exact ⟨b :: out, by simp [optTraverse, hb, hout]⟩

lemma mem_of_optTraverse_some {α β : Type} (f : α → Option β) (l : List α) (out : List β)
    (h : optTraverse f l = some out) : ∀ b ∈ out, ∃ a ∈ l, f a = some b := by
  induction l generalizing out with
  | nil =>
    simp only [optTraverse, Option.some_inj] at h
    subst h; intro b hb; simp at hb
  | cons a l ih =>
    simp only [optTraverse] at h
    cases hfa : f a with
    | none => rw [hfa] at h; simp at h
    | some b0 =>
      cases hrest : optTraverse f l with
      | none => rw [hfa, hrest] at h; simp at h
      | some rest =>
        rw [hfa, hrest] at h
        simp only [Option.some_inj] at h
        intro b hb
        rw [← h] at hb
        rcases List.mem_cons.mp hb with h1 | h2
        · exact ⟨a, List.mem_cons_self a l, h1 ▸ hfa⟩
        · obtain ⟨a2, ha2, hfa2⟩ := ih rest hrest b h2
          exact ⟨a2, List.mem_cons_of_mem a ha2, hfa2⟩

/- ======  facts about rolling means of gains/losses  ====== -/

lemma gainF_nonneg (cs : List ℚ) (i : ℕ) (x : ℚ) (h : gainF cs i = some x) : 0 ≤ x := by
  unfold gainF at h
  cases hd : deltaF cs i with
  | none => simp [hd] at h
  | some d =>
    rw [hd] at h
    simp only [Option.map_some', Option.some_inj] at h
    subst h; exact le_max_right d 0

lemma lossF_nonneg (cs : List ℚ) (i : ℕ) (x : ℚ) (h : lossF cs i = some x) : 0 ≤ x := by
  unfold lossF at h
  cases hd : deltaF cs i with
  | none => simp [hd] at h
  | some d =>
    rw [hd] at h
    simp only [Option.map_some', Option.some_inj] at h
    subst h
    simp only [neg_nonneg]
    exact min_le_right d 0

lemma rollingMeanF_nonneg (p : ℕ) (f : ℕ → Option ℚ)
    (hf : ∀ j x, f j = some x → 0 ≤ x) (i : ℕ) (g : ℚ)
    (h : rollingMeanF p f i = some g) : 0 ≤ g := by
  unfold rollingMeanF at h
  split at h
  · exact absurd h (by simp)
  · cases hm : optTraverse (fun k => f (i + 1 - p + k)) (List.range p) with
    | none => rw [hm] at h; simp at h
    | some out =>
      rw [hm] at h
      simp only [Option.map_some', Option.some_inj] at h
      subst h
      apply div_nonneg
      · apply List.sum_nonneg
        intro x hx
        obtain ⟨k, _, hk⟩ := mem_of_optTraverse_some _ _ _ hm x hx
        exact hf _ x hk
      · exact_mod_cast Nat.zero_le p

/-- Arithmetic core of the RSI range bound. -/
lemma rsi_val_range (g l : ℚ) (hg : 0 ≤ g) (hl : 0 ≤ l) :
    0 ≤ 100 - 100 / (1 + g / (if l = 0 then 1 / 10 ^ 10 else l)) ∧
    100 - 100 / (1 + g / (if l = 0 then 1 / 10 ^ 10 else l)) ≤ 100 := by
  set l' : ℚ := if l = 0 then 1 / 10 ^ 10 else l with hl'
  have hl'pos : 0 < l' := by
    rw [hl']
    by_cases h : l = 0
    · simp only [h, if_pos]
      norm_num
    · simp only [h, if_neg, not_false_iff]
      exact lt_of_le_of_ne hl (fun e => h e.symm)
  have hrs : 0 ≤ g / l' := div_nonneg hg hl'pos.le
  have h1 : (1 : ℚ) ≤ 1 + g / l' := by linarith
  have hpos : (0 : ℚ) < 1 + g / l' := by linarith
  constructor
  · have : 100 / (1 + g / l') ≤ 100 := div_le_self (by norm_num) h1
    linarith
  · have : 0 < 100 / (1 + g / l') := div_pos (by norm_num) hpos
    linarith

lemma deltaF_zero (cs : List ℚ) : deltaF cs 0 = none := by
  simp [deltaF]

lemma gainF_zero (cs : List ℚ) : gainF cs 0 = none := by
  simp [gainF, deltaF_zero]

lemma deltaF_isSome (cs : List ℚ) (j : ℕ) (h1 : 1 ≤ j) (h2 : j < cs.length) :
    (deltaF cs j).isSome := by
  unfold deltaF
  rw [if_neg (by omega : ¬ j = 0)]
  rw [List.get?_eq_get (by omega : j - 1 < cs.length), List.get?_eq_get h2]
  rfl

lemma rollingMeanF_isSome (p : ℕ) (f : ℕ → Option ℚ) (i : ℕ) (hp : p ≤ i + 1)
    (h : ∀ k, k < p → (f (i + 1 - p + k)).isSome) : (rollingMeanF p f i).isSome := by
  unfold rollingMeanF
  rw [if_neg (by omega)]
  obtain ⟨out, hout⟩ :=
    optTraverse_isSome_of_forall (fun k => f (i + 1 - p + k)) (List.range p)
      (fun k hk => h k (List.mem_range.mp hk))
  rw [hout]
  rfl

lemma rollingMeanF_none_small (p : ℕ) (f : ℕ → Option ℚ) (i : ℕ) (hp : 1 ≤ p) (hi : i < p)
    (h0 : f 0 = none) : rollingMeanF p f i = none := by
  unfold rollingMeanF
  by_cases hlt : i + 1 < p
  · rw [if_pos hlt]
  · rw [if_neg hlt]
    obtain ⟨q, hq⟩ : ∃ q, p = q + 1 := ⟨p - 1, by omega⟩
    subst hq
    rw [List.range_succ_eq_map]
    rw [optTraverse_none_of_head_none _ 0 _
      (show f (i + 1 - (q + 1) + 0) = none by
        rw [show i + 1 - (q + 1) + 0 = 0 by omega]; exact h0)]
    rfl

lemma compute_rsi_defined (cs : List ℚ) (p i : ℕ) (hp : 1 ≤ p) (hpi : p ≤ i)
    (hi : i < cs.length) : ∃ r, compute_rsi cs p i = some r := by
  have hgain : (rollingMeanF p (gainF cs) i).isSome := by
    apply rollingMeanF_isSome _ _ _ (by omega)
    intro k hk
    obtain ⟨d, hd⟩ := Option.isSome_iff_exists.mp
      (deltaF_isSome cs (i + 1 - p + k) (by omega) (by omega))
    simp [gainF, hd]
  have hloss : (rollingMeanF p (lossF cs) i).isSome := by
    apply rollingMeanF_isSome _ _ _ (by omega)
    intro k hk
    obtain ⟨d, hd⟩ := Option.isSome_iff_exists.mp
      (deltaF_isSome cs (i + 1 - p + k) (by omega) (by omega))
    simp [lossF, hd]
  obtain ⟨g, hg⟩ := Option.isSome_iff_exists.mp hgain
  obtain ⟨l, hl⟩ := Option.isSome_iff_exists.mp hloss
  refine ⟨100 - 100 / (1 + g / (if l = 0 then 1 / 10 ^ 10 else l)), ?_⟩
  simp [compute_rsi, hg, hl]

lemma compute_rsi_range (cs : List ℚ) (p i : ℕ) (r : ℚ)
    (h : compute_rsi cs p i = some r) : 0 ≤ r ∧ r ≤ 100 := by
  unfold compute_rsi at h
  rw [Option.bind_eq_some] at h
  obtain ⟨g, hg, hmap⟩ := h
  rw [Option.map_eq_some'] at hmap
  obtain ⟨l, hl, hval⟩ := hmap
  subst hval
  exact rsi_val_range g l
    (rollingMeanF_nonneg p _ (gainF_nonneg cs) i g hg)
    (rollingMeanF_nonneg p _ (lossF_nonneg cs) i l hl)

/-- C8: for every close series and `period ≥ 1`, RSI is undefined (`NaN`)
for indices inside the warm-up window (`i < period`); it is defined at every
index with a full window (`period ≤ i < length`); every defined RSI value
lies in `[0, 100]`; and a zero average loss is replaced by the fixed epsilon
`1e-10`, keeping RSI defined there. -/
theorem C8_rsi_warmup_range_epsilon (cs : List ℚ) (p : ℕ) (hp : 1 ≤ p) :
    (∀ i, i < p → compute_rsi cs p i = none) ∧
    (∀ i, p ≤ i → i < cs.length → ∃ r, compute_rsi cs p i = some r) ∧
    (∀ i r, compute_rsi cs p i = some r → 0 ≤ r ∧ r ≤ 100) ∧
    (∀ i g, rollingMeanF p (gainF cs) i = some g →
      rollingMeanF p (lossF cs) i = some 0 →
      compute_rsi cs p i = some (100 - 100 / (1 + g / (1 / 10 ^ 10)))) := by
  refine ⟨?_, ?_, ?_, ?_⟩
  · intro i hi
    have : rollingMeanF p (gainF cs) i = none :=
      rollingMeanF_none_small p _ i hp hi (gainF_zero cs)
    simp [compute_rsi, this]
  · intro i h1 h2
    exact compute_rsi_defined cs p i hp h1 h2
  · intro i r h
    exact compute_rsi_range cs p i r h
  · intro i g hg hl
    simp [compute_rsi, hg, hl]

/-- Witness for C8 at the concrete series `[1, 2]` with `period = 1`. -/
theorem C8_rsi_warmup_range_epsilon_w :
    1 ≤ 1 ∧ compute_rsi [1, 2] 1 0 = none ∧ (∃ r, compute_rsi [1, 2] 1 1 = some r) := by
  refine ⟨le_refl 1, ?_, ?_⟩
  · exact (C8_rsi_warmup_range_epsilon [1, 2] 1 (le_refl 1)).1 0 (by norm_num)
  · exact (C8_rsi_warmup_range_epsilon [1, 2] 1 (le_refl 1)).2.1 1 (le_refl 1) (by norm_num)

/- ======================  indicators.py : compute_adx  ====================== -/

/-- One OHLC bar (only the fields `compute_adx` reads). -/
structure Bar where
  high : ℚ
  low : ℚ
  close : ℚ
  deriving DecidableEq, Repr

/-- `df["high"].diff()`. -/
def diffHigh (bars : List Bar) (i : ℕ) : Option ℚ :=
  if i = 0 then none
  else
    match bars.get? (i - 1), bars.get? i with
    | some a, some b => some (b.high - a.high)
    | _, _ => none

/-- `df["low"].diff()`. -/
def diffLow (bars : List Bar) (i : ℕ) : Option ℚ :=
  if i = 0 then none
  else
    match bars.get? (i - 1), bars.get? i with
    | some a, some b => some (b.low - a.low)
    | _, _ => none

/-- `+DM = np.where((diff_high > diff_low) & (diff_high > 0), diff_high, 0.0)`;
a comparison involving `NaN` is `False`, so row 0 gets `0.0`. -/
def plusDM (bars : List Bar) (i : ℕ) : Option ℚ :=
  if i < bars.length then
    some (match diffHigh bars i, diffLow bars i with
      | some dh, some dl => if dh > dl ∧ dh > 0 then dh else 0
      | _, _ => 0)
  else none

/-- `-DM = np.where((diff_low > diff_high) & (diff_low > 0), diff_low, 0.0)`. -/
def minusDM (bars : List Bar) (i : ℕ) : Option ℚ :=
  if i < bars.length then
    some (match diffHigh bars i, diffLow bars i with
      | some dh, some dl => if dl > dh ∧ dl > 0 then dl else 0
      | _, _ => 0)
  else none

/-- `TR = max(high-low, |high-prev_close|, |low-prev_close|)`; the row-wise
`max` skips `NaN`, so row 0 is just `high - low`. -/
def trF (bars : List Bar) (i : ℕ) : Option ℚ :=
  (bars.get? i).map (fun b =>
    match i, bars.get? (i - 1) with
    | 0, _ => b.high - b.low
    | _ + 1, some pb => max (b.high - b.low) (max |b.high - pb.close| |b.low - pb.close|)
    | _ + 1, none => b.high - b.low)

/-- `series.ewm(alpha=α, adjust=False).mean()` on a series with no interior
`NaN`s: `s₀ = x₀`, `sᵢ = (1-α)·sᵢ₋₁ + α·xᵢ` (Wilder's smoothing). -/
def ewmWilder (a : ℚ) (f : ℕ → Option ℚ) : ℕ → Option ℚ
  | 0 => f 0
  | i + 1 =>
    (ewmWilder a f i).bind (fun prev =>
      (f (i + 1)).map (fun x => (1 - a) * prev + a * x))

/-- `+DI = 100 * (+DM_smooth / TR_smooth)`; dividing by a zero smoothed TR is
undefined (the reachable case is pandas' `0/0 = NaN`). -/
def plusDI (bars : List Bar) (p : ℕ) (i : ℕ) : Option ℚ :=
  (ewmWilder (1 / (p : ℚ)) (plusDM bars) i).bind (fun dm =>
    (ewmWilder (1 / (p : ℚ)) (trF bars) i).bind (fun trs =>
      if trs = 0 then none else some (100 * (dm / trs))))

/-- `-DI = 100 * (-DM_smooth / TR_smooth)`. -/
def minusDI (bars : List Bar) (p : ℕ) (i : ℕ) : Option ℚ :=
  (ewmWilder (1 / (p : ℚ)) (minusDM bars) i).bind (fun dm =>
    (ewmWilder (1 / (p : ℚ)) (trF bars) i).bind (fun trs =>
      if trs = 0 then none else some (100 * (dm / trs))))

/-- `DX = (|+DI - -DI| / (+DI + -DI)) * 100` from `compute_adx`, line 95 of
`indicators.py`.  There is no guard on the denominator: when
`+DI + -DI = 0` (which forces `|+DI - -DI| = 0` too, both DI being
nonnegative there) pandas evaluates `0/0 = NaN`, modelled as `none`. -/
def dxF (bars : List Bar) (p : ℕ) (i : ℕ) : Option ℚ :=
  (plusDI bars p i).bind (fun pdi =>
    (minusDI bars p i).bind (fun mdi =>
      if pdi + mdi = 0 then none else some (|pdi - mdi| / (pdi + mdi) * 100)))

/-- A flat two-bar series: constant `high = 2`, `low = 1`, `close = 3/2`.
Both directional movements are zero at every row while `TR = 1 > 0`. -/
def adxFlatBars : List Bar := [⟨2, 1, 3/2⟩, ⟨2, 1, 3/2⟩]

/-- C1 (code bug): at a row where the smoothed `+DI` and `-DI` are both `0`
(so they sum to zero), `compute_adx` produces an undefined (`NaN`) `DX`, not
the `DX = 0` the specification requires: the division on line 95 of
`indicators.py` has no zero-denominator guard. -/
theorem C1_dx_nan_on_zero_di_sum :
    plusDI adxFlatBars 14 1 = some 0 ∧
    minusDI adxFlatBars 14 1 = some 0 ∧
    dxF adxFlatBars 14 1 = none ∧
    dxF adxFlatBars 14 1 ≠ some 0 := by
  have hdm : plusDM adxFlatBars 0 = some 0 ∧ plusDM adxFlatBars 1 = some 0 ∧
      minusDM adxFlatBars 0 = some 0 ∧ minusDM adxFlatBars 1 = some 0 := by
    refine ⟨?_, ?_, ?_, ?_⟩ <;>
      norm_num [plusDM, minusDM, diffHigh, diffLow, adxFlatBars]
  have htr : trF adxFlatBars 0 = some 1 ∧ trF adxFlatBars 1 = some 1 := by
    constructor <;> norm_num [trF, adxFlatBars, abs_of_nonneg, abs_of_nonpos]
  have hsdm : ewmWilder (1 / (14 : ℚ)) (plusDM adxFlatBars) 1 = some 0 := by
    simp [ewmWilder, hdm.1, hdm.2.1]
  have hsmdm : ewmWilder (1 / (14 : ℚ)) (minusDM adxFlatBars) 1 = some 0 := by
    simp [ewmWilder, hdm.2.2.1, hdm.2.2.2]
  have hstr : ewmWilder (1 / (14 : ℚ)) (trF adxFlatBars) 1 = some 1 := by
    norm_num [ewmWilder, htr.1, htr.2]
  have hpdi : plusDI adxFlatBars 14 1 = some 0 := by
    norm_num [plusDI, hsdm, hstr]
  have hmdi : minusDI adxFlatBars 14 1 = some 0 := by
    norm_num [minusDI, hsmdm, hstr]
  have hdx : dxF adxFlatBars 14 1 = none := by
    norm_num [dxF, hpdi, hmdi]
  exact ⟨hpdi, hmdi, hdx, by rw [hdx]; exact Option.noConfusion⟩

/- ================  indicators.py : compute_bollinger_bands  ================ -/

/-- The full trailing window `[i+1-p, i]` of the (NaN-free) close series,
`none` while the window is incomplete — pandas `rolling(window=p)`. -/
def rollingWindow (p : ℕ) (cs : List ℚ) (i : ℕ) : Option (List ℚ) :=
  if p ≤ i + 1 ∧ i < cs.length then some ((cs.drop (i + 1 - p)).take p) else none

/-- `df["close"].rolling(window=period).mean()` — the `BB_mid` column. -/
def BB_mid (p : ℕ) (cs : List ℚ) (i : ℕ) : Option ℚ :=
  (rollingWindow p cs i).map (fun w => w.sum / (p : ℚ))

/-- The variance computed by pandas `rolling(window=p).std()`: the default
`ddof = 1`, i.e. the SAMPLE variance with denominator `p - 1`. -/
def sampleVarQ (p : ℕ) (w : List ℚ) : ℚ :=
  (w.map (fun x => (x - w.sum / (p : ℚ)) ^ 2)).sum / ((p : ℚ) - 1)

/-- `df["close"].rolling(window=period).std()` — the `BB_std` column. -/
noncomputable def BB_std (p : ℕ) (cs : List ℚ) (i : ℕ) : Option ℝ :=
  (rollingWindow p cs i).map (fun w => Real.sqrt ((sampleVarQ p w : ℚ) : ℝ))

/-- `df["BB_upper"] = df["BB_mid"] + (num_std * df["BB_std"])`. -/
noncomputable def BB_upper (p : ℕ) (cs : List ℚ) (nstd : ℚ) (i : ℕ) : Option ℝ :=
  (BB_mid p cs i).bind (fun m => (BB_std p cs i).map (fun s => (m : ℝ) + (nstd : ℝ) * s))

/-- `df["BB_lower"] = df["BB_mid"] - (num_std * df["BB_std"])`. -/
noncomputable def BB_lower (p : ℕ) (cs : List ℚ) (nstd : ℚ) (i : ℕ) : Option ℝ :=
  (BB_mid p cs i).bind (fun m => (BB_std p cs i).map (fun s => (m : ℝ) - (nstd : ℝ) * s))

/-- Population variance (`ddof = 0`, denominator `p`) of a full window. -/
def popVarQ (p : ℕ) (w : List ℚ) : ℚ :=
  (w.map (fun x => (x - w.sum / (p : ℚ)) ^ 2)).sum / (p : ℚ)

/-- The upper band as the specification words it — mid plus `num_std` times
the trailing POPULATION standard deviation.  Stated only to compare with the
code's `BB_upper`. -/
noncomputable def spec_BB_upper (p : ℕ) (cs : List ℚ) (nstd : ℚ) (i : ℕ) : Option ℝ :=
  (BB_mid p cs i).bind (fun m => (rollingWindow p cs i).map (fun w =>
    (m : ℝ) + (nstd : ℝ) * Real.sqrt ((popVarQ p w : ℚ) : ℝ)))

/-- Trailing simple moving average over `[i+1-p, i]`, written as an explicit
indexed sum (the spec's independent formulation). -/
def trailingSMA (p : ℕ) (cs : List ℚ) (i : ℕ) : ℚ :=
  (∑ j ∈ Finset.range p, cs.getD (i + 1 - p + j) 0) / (p : ℚ)

/-- Trailing sample variance (`ddof = 1`) over `[i+1-p, i]`, written as an
explicit indexed sum. -/
def trailingSampleVar (p : ℕ) (cs : List ℚ) (i : ℕ) : ℚ :=
  (∑ j ∈ Finset.range p, (cs.getD (i + 1 - p + j) 0 - trailingSMA p cs i) ^ 2) /
    ((p : ℚ) - 1)

lemma list_range_map_sum (n : ℕ) (f : ℕ → ℚ) :
    ((List.range n).map f).sum = ∑ j ∈ Finset.range n, f j := by
  induction n with
  | zero => simp
  | succ n ih =>
    rw [List.range_succ, List.map_append, List.sum_append, Finset.sum_range_succ, ih]
    simp

lemma drop_take_eq_range_map (cs : List ℚ) (a p : ℕ) (h : a + p ≤ cs.length) :
    (cs.drop a).take p = (List.range p).map (fun j => cs.getD (a + j) 0) := by
  apply List.ext_getElem
  · simp
    omega
  · intro n h1 h2
    have hn : n < p := by simpa using h2
    simp only [List.getElem_take, List.getElem_drop, List.getElem_map, List.getElem_range]
    rw [List.getD_eq_getElem cs 0 (by omega)]

lemma rollingWindow_full (cs : List ℚ) (p i : ℕ) (hwin : p ≤ i + 1) (hlen : i < cs.length) :
    rollingWindow p cs i =
      some ((List.range p).map (fun j => cs.getD (i + 1 - p + j) 0)) := by
  unfold rollingWindow
  rw [if_pos ⟨hwin, hlen⟩, drop_take_eq_range_map cs (i + 1 - p) p (by omega)]

/-- C7 (amended): for every index with a full window, `BB_mid` is the trailing
simple moving average of close and the bands are `mid ± num_std` times the
trailing SAMPLE standard deviation (pandas `std()` default `ddof = 1`) — not
the population standard deviation. -/
theorem C7_bollinger_sample_std (cs : List ℚ) (p : ℕ) (nstd : ℚ) (i : ℕ)
    (hwin : p ≤ i + 1) (hlen : i < cs.length) :
    BB_mid p cs i = some (trailingSMA p cs i) ∧
    BB_upper p cs nstd i =
      some ((trailingSMA p cs i : ℝ) +
        (nstd : ℝ) * Real.sqrt ((trailingSampleVar p cs i : ℚ) : ℝ)) ∧
    BB_lower p cs nstd i =
      some ((trailingSMA p cs i : ℝ) -
        (nstd : ℝ) * Real.sqrt ((trailingSampleVar p cs i : ℚ) : ℝ)) := by
  have hw := rollingWindow_full cs p i hwin hlen
  have hsum : ((List.range p).map (fun j => cs.getD (i + 1 - p + j) 0)).sum
      = ∑ j ∈ Finset.range p, cs.getD (i + 1 - p + j) 0 := list_range_map_sum p _
  have hmid : BB_mid p cs i = some (trailingSMA p cs i) := by
    rw [BB_mid, hw]
    simp only [Option.map_some']
    rw [hsum]
    rfl
  have hvar : sampleVarQ p ((List.range p).map (fun j => cs.getD (i + 1 - p + j) 0))
      = trailingSampleVar p cs i := by
    unfold sampleVarQ trailingSampleVar trailingSMA
    rw [hsum, List.map_map, list_range_map_sum]
    simp only [Function.comp]
  refine ⟨hmid, ?_, ?_⟩
  · rw [BB_upper, hmid, BB_std, hw]
    simp only [Option.map_some', Option.some_bind, Option.some_inj]
    rw [hvar]
  · rw [BB_lower, hmid, BB_std, hw]
    simp only [Option.map_some', Option.some_bind, Option.some_inj]
    rw [hvar]

/-- Witness for C7 (amended) at closes `[0, 2]`, `period = 2`, index 1. -/
theorem C7_bollinger_sample_std_w :
    (2 ≤ 1 + 1 ∧ 1 < ([0, 2] : List ℚ).length) ∧
    BB_mid 2 [0, 2] 1 = some (trailingSMA 2 [0, 2] 1) := by
  refine ⟨⟨by norm_num, by norm_num⟩, ?_⟩
  exact (C7_bollinger_sample_std [0, 2] 2 1 1 (by norm_num) (by norm_num)).1

/-- C7 counterexample: on closes `[0, 2]` with `period = 2`, `num_std = 1`,
index 1, the code's upper band is `1 + √2` (sample standard deviation,
`ddof = 1`) while the claimed population-standard-deviation band is
`1 + √1 = 2`; they differ. -/
theorem C7_counterexample :
    BB_upper 2 [0, 2] 1 1 ≠ spec_BB_upper 2 [0, 2] 1 1 := by
  have hw : rollingWindow 2 [0, 2] 1 = some [0, 2] := by
    norm_num [rollingWindow]
  have hmid : BB_mid 2 [0, 2] 1 = some 1 := by
    norm_num [BB_mid, hw]
  have hsv : sampleVarQ 2 [0, 2] = 2 := by
    norm_num [sampleVarQ]
  have hpv : popVarQ 2 [0, 2] = 1 := by
    norm_num [popVarQ]
  have hcode : BB_upper 2 [0, 2] 1 1 = some (1 + Real.sqrt 2) := by
    rw [BB_upper, hmid, BB_std, hw]
    simp only [Option.map_some', Option.some_bind, Option.some_inj]
    rw [hsv]
    norm_num
  have hspec : spec_BB_upper 2 [0, 2] 1 1 = some 2 := by
    rw [spec_BB_upper, hmid, hw]
    simp only [Option.map_some', Option.some_bind, Option.some_inj]
    rw [hpv]
    norm_num
  rw [hcode, hspec]
  intro h
  have h2 : (1 : ℝ) + Real.sqrt 2 = 2 := Option.some_inj.mp h
  have hlt : (1 : ℝ) < Real.sqrt 2 := by
    have hs := Real.sqrt_lt_sqrt (by norm_num : (0:ℝ) ≤ 1) (by norm_num : (1:ℝ) < 2)
    simpa using hs
  linarith

/- =========================  main_bot.py : model  ========================= -/

/-- `str.upper()` restricted to ASCII, which is all the code compares. -/
def strUpper (s : String) : String :=
  ⟨s.data.map Char.toUpper⟩

/-- Constants from `config.py`. -/
def DAILY_DRAWDOWN_LIMIT_PCT : ℚ := 7.5

def MAX_TRADES_PER_DAY : ℕ := 5

def MAX_CONSECUTIVE_LOSSES : ℕ := 3

def TRAILING_STOP_PIPS : ℚ := 17

/-- The `open_trade` dict registered by `main_async` (lines 167-176). -/
structure Trade where
  instrument : String
  side : String
  entry_price : ℚ
  units : ℚ
  order_id : ℕ
  max_price : Option ℚ
  min_price : Option ℚ
  take_profit_price : ℚ
  deriving DecidableEq, Repr

/-- `compute_unrealized_pnl` from `main_bot.py` (the Python default
`pip_value = 0.0001` is passed explicitly at every call site here). -/
def compute_unrealized_pnl (trade : Trade) (current_price : ℚ) (pip_value : ℚ) : ℚ :=
  if strUpper trade.side = "BUY" then
    (current_price - trade.entry_price) * trade.units * pip_value
  else
    (trade.entry_price - current_price) * trade.units * pip_value

/-- Modelled from the spec: `close_trades(trades) -> list_of_trades_that_
failed_to_close` — `close_all_trades` lives in `utils.py`, which is not among
the provided sources; per-trade success is supplied by the environment. -/
def close_all_trades (closeOk : Trade → Bool) (trades : List Trade) : List Trade :=
  trades.filter (fun t => !closeOk t)

/-- One iteration's view of every external collaborator `main_async` calls:
clock, account balance (one value per `get_account_balance` call site),
fetched data sufficiency, indicator/signal/trend outputs from
`strategy.py`/`utils.py`, order placement and close results. -/
structure Env where
  day : ℕ
  hour : ℕ
  weekday : ℕ
  balanceReset : ℚ
  balanceCheck : ℚ
  instruments : List String
  hasData : String → Bool
  adx : String → ℚ
  latestClose : String → ℚ
  trendM15 : String → String
  trendM5 : String → String
  signal : String → String
  atr : String → ℚ
  positionSize : String → ℚ
  placeOrder : String → Option ℕ
  refetchClose : String → Option ℚ
  closeOk : Trade → Bool

/-- The controller state that survives from one loop iteration to the next. -/
structure BotState where
  daily_trade_count : ℕ
  consecutive_losses : ℕ
  start_of_day_equity : Option ℚ
  last_date : Option ℕ
  open_trades : List Trade
  deriving Repr

/-- `confirmed_signal` (lines 127-134): trend confirmation of the base
signal. -/
def confirmSignal (signal trend_M15 trend_M5 : String) : String :=
  if signal = "BUY" ∧ trend_M15 = "up" ∧ trend_M5 = "up" then "BUY"
  else if signal = "SELL" ∧ trend_M15 = "down" ∧ trend_M5 = "down" then "SELL"
  else "FLAT"

/-- ATR-based stop-loss/take-profit prices (lines 150-162):
`atr_in_pips = atr * 10000`, `stop_loss_pips = atr_in_pips * 1.5`, then
`±stop_loss_pips * 0.0001` and `reward_factor = 2.0`. -/
def stopTakeProfit (confirmed : String) (current_price atr_value : ℚ) : ℚ × ℚ :=
  let atr_in_pips := atr_value * 10000
  let stop_loss_pips := atr_in_pips * 1.5
  if strUpper confirmed = "BUY" then
    (current_price - stop_loss_pips * 0.0001,
     current_price + stop_loss_pips * 0.0001 * 2.0)
  else
    (current_price + stop_loss_pips * 0.0001,
     current_price - stop_loss_pips * 0.0001 * 2.0)

/-- Accumulator of the per-instrument loop (lines 99-178): running trade
count, the `latest_prices` dict, and the trades registered this iteration. -/
structure InstAcc where
  count : ℕ
  latest : String → Option ℚ
  newTrades : List Trade

/-- Body of the per-instrument loop (lines 99-178) for one instrument. -/
def processInstrument (env : Env) (losses : ℕ) (acc : InstAcc) (inst : String) : InstAcc :=
  if ¬ env.hasData inst then acc
  else
    let latest_price := env.latestClose inst
    let acc1 : InstAcc :=
      { acc with latest := fun x => if x = inst then some latest_price else acc.latest x }
    if env.adx inst < 25 then acc1
    else
      let confirmed := confirmSignal (env.signal inst) (env.trendM15 inst) (env.trendM5 inst)
      if confirmed = "BUY" ∨ confirmed = "SELL" then
        if acc1.count ≥ MAX_TRADES_PER_DAY ∨ losses ≥ MAX_CONSECUTIVE_LOSSES then acc1
        else
          let stp := stopTakeProfit confirmed latest_price (env.atr inst)
          match env.placeOrder inst with
          | none => acc1
          | some oid =>
            let tr : Trade :=
              { instrument := inst
                side := confirmed
                entry_price := latest_price
                units := env.positionSize inst
                order_id := oid
                max_price := if strUpper confirmed = "BUY" then some latest_price else none
                min_price := if strUpper confirmed = "SELL" then some latest_price else none
                take_profit_price := stp.2 }
            { acc1 with count := acc1.count + 1, newTrades := acc1.newTrades ++ [tr] }
      else acc1

/-- `latest_prices.get(inst)` with the fallback single-bar re-fetch
(lines 183-188 and 234-239). -/
def trailPrice (env : Env) (latest : String → Option ℚ) (inst : String) : Option ℚ :=
  match latest inst with
  | some p => some p
  | none => env.refetchClose inst

/-- Result of running the trailing-stop body (lines 181-228) on one trade. -/
structure TrailOut where
  kept : Option Trade
  losses : ℕ
  closeReq : List (Trade × ℚ)
  tsError : Bool

/-- Trailing-stop body (lines 181-228) for one trade.  `tsError` records the
`TypeError` Python would raise on comparing a price against a `None`-valued
favorable-extreme field. -/
def trailingTrade (env : Env) (latest : String → Option ℚ) (losses : ℕ) (t : Trade) :
    TrailOut :=
  match trailPrice env latest t.instrument with
  | none => { kept := some t, losses := losses, closeReq := [], tsError := false }
  | some current_price =>
    if strUpper t.side = "BUY" then
      match t.max_price with
      | none => { kept := some t, losses := losses, closeReq := [], tsError := true }
      | some m =>
        let newMax := if current_price > m then current_price else m
        let t1 : Trade := { t with max_price := some newMax }
        if current_price - t1.entry_price > (t1.take_profit_price - t1.entry_price) * 0.35 then
          if current_price < newMax - TRAILING_STOP_PIPS * 0.0001 then
            if close_all_trades env.closeOk [t1] = [] then
              { kept := none
                losses :=
                  if compute_unrealized_pnl t1 current_price 0.0001 < 0 then losses + 1 else 0
                closeReq := [(t1, current_price)]
                tsError := false }
            else
              { kept := some t1, losses := losses, closeReq := [(t1, current_price)],
                tsError := false }
          else { kept := some t1, losses := losses, closeReq := [], tsError := false }
        else { kept := some t1, losses := losses, closeReq := [], tsError := false }
    else if strUpper t.side = "SELL" then
      match t.min_price with
      | none => { kept := some t, losses := losses, closeReq := [], tsError := true }
      | some m =>
        let newMin := if current_price < m then current_price else m
        let t1 : Trade := { t with min_price := some newMin }
        if t1.entry_price - current_price > (t1.entry_price - t1.take_profit_price) * 0.5 then
          if current_price > newMin + TRAILING_STOP_PIPS * 0.0001 then
            if close_all_trades env.closeOk [t1] = [] then
              { kept := none
                losses :=
                  if compute_unrealized_pnl t1 current_price 0.0001 < 0 then losses + 1 else 0
                closeReq := [(t1, current_price)]
                tsError := false }
            else
              { kept := some t1, losses := losses, closeReq := [(t1, current_price)],
                tsError := false }
          else { kept := some t1, losses := losses, closeReq := [], tsError := false }
        else { kept := some t1, losses := losses, closeReq := [], tsError := false }
    else { kept := some t, losses := losses, closeReq := [], tsError := false }

/-- Aggregate result of the trailing-stop loop over the open-trade list. -/
structure PhaseOut where
  trades : List Trade
  losses : ℕ
  closeReq : List (Trade × ℚ)
  tsError : Bool

/-- The trailing-stop loop (lines 181-228): iterate over a copy of
`open_trades`, removing a trade only when its single-trade close succeeds. -/
def trailingPhase (env : Env) (latest : String → Option ℚ) :
    ℕ → List Trade → PhaseOut
  | losses, [] => { trades := [], losses := losses, closeReq := [], tsError := false }
  | losses, t :: rest =>
    let o := trailingTrade env latest losses t
    let r := trailingPhase env latest o.losses rest
    { trades := o.kept.toList ++ r.trades
      losses := r.losses
      closeReq := o.closeReq ++ r.closeReq
      tsError := o.tsError || r.tsError }

/-- `total_unrealized_loss` (lines 231-242): per-trade unrealized PnL at this
iteration's price, summing only the losses; a trade whose price cannot be
fetched is skipped. -/
def unrealizedLossSum (env : Env) (latest : String → Option ℚ) (trades : List Trade) : ℚ :=
  trades.foldl (fun acc t =>
    match trailPrice env latest t.instrument with
    | none => acc
    | some p =>
      let pnl := compute_unrealized_pnl t p 0.0001
      if pnl < 0 then acc + pnl else acc) 0

/-- The aggregate kill-switch (lines 244-248): when the loss magnitude
reaches `start_of_day_equity * (DAILY_DRAWDOWN_LIMIT_PCT / 100)`, replace the
open list by `close_all_trades`' failure list.  Returns the new open list
and whether the switch fired. -/
def killSwitchPhase (env : Env) (latest : String → Option ℚ) (e0 : ℚ)
    (trades : List Trade) : List Trade × Bool :=
  if |unrealizedLossSum env latest trades| ≥ e0 * (DAILY_DRAWDOWN_LIMIT_PCT / 100) then
    (close_all_trades env.closeOk trades, true)
  else (trades, false)

/-- Day-state reset (lines 77-82). -/
def afterReset (env : Env) (s : BotState) : BotState :=
  if s.last_date ≠ some env.day then
    { s with last_date := some env.day
             daily_trade_count := 0
             consecutive_losses := 0
             start_of_day_equity := some env.balanceReset }
  else s

/-- The `start_of_day_equity` actually used by the drawdown check after the
`None` fallback (lines 85-86). -/
def effectiveStartEquity (env : Env) (s : BotState) : ℚ :=
  match (afterReset env s).start_of_day_equity with
  | none => env.balanceCheck
  | some e => e

/-- `dd_pct` (line 87). -/
def ddPct (env : Env) (s : BotState) : ℚ :=
  (env.balanceCheck - effectiveStartEquity env s) / effectiveStartEquity env s * 100

/-- Observable record of which phases of one iteration ran and what they
requested. -/
structure IterLog where
  ranInstruments : Bool
  ranTrailing : Bool
  ranKillSwitch : Bool
  ordersPlaced : List Trade
  trailingCloseReqs : List (Trade × ℚ)
  killTriggered : Bool
  killCloseReqs : List Trade
  tsError : Bool

/-- The log of an iteration that stopped at a gate (`continue`). -/
def emptyLog : IterLog :=
  { ranInstruments := false, ranTrailing := false, ranKillSwitch := false,
    ordersPlaced := [], trailingCloseReqs := [], killTriggered := false,
    killCloseReqs := [], tsError := false }

/-- One full iteration of the `while True` body of `main_async`
(lines 58-250), with the session gates, daily reset, drawdown gate,
per-instrument phase, trailing-stop phase and kill-switch in source order. -/
def iterate (env : Env) (s : BotState) : BotState × IterLog :=
  if env.hour < 6 ∨ env.hour > 18 then (s, emptyLog)
  else if env.weekday ≥ 5 then (s, emptyLog)
  else
    let s1 := afterReset env s
    let e0 := effectiveStartEquity env s
    let s2 := { s1 with start_of_day_equity := some e0 }
    if ddPct env s ≤ -DAILY_DRAWDOWN_LIMIT_PCT then (s2, emptyLog)
    else
      let acc0 : InstAcc := { count := s2.daily_trade_count, latest := fun _ => none,
                              newTrades := [] }
      let acc := env.instruments.foldl (processInstrument env s2.consecutive_losses) acc0
      let open1 := s2.open_trades ++ acc.newTrades
      let ph := trailingPhase env acc.latest s2.consecutive_losses open1
      let ks := killSwitchPhase env acc.latest e0 ph.trades
      ({ s2 with daily_trade_count := acc.count
                 consecutive_losses := ph.losses
                 open_trades := ks.1 },
       { ranInstruments := true
         ranTrailing := true
         ranKillSwitch := true
         ordersPlaced := acc.newTrades
         trailingCloseReqs := ph.closeReq
         killTriggered := ks.2
         killCloseReqs := if ks.2 then ph.trades else []
         tsError := ph.tsError })

/-- The controller loop: state after `n` iterations under the per-iteration
environments `envs`. -/
def run (envs : ℕ → Env) (s0 : BotState) : ℕ → BotState
  | 0 => s0
  | n + 1 => (iterate (envs n) (run envs s0 n)).1

lemma strUpper_BUY : strUpper "BUY" = "BUY" := rfl

lemma strUpper_SELL : strUpper "SELL" = "SELL" := rfl

lemma strUpper_SELL_ne_BUY : strUpper "SELL" ≠ "BUY" := by decide

/-- C6: for every confirmed BUY with entry `p` and ATR `a > 0` the order is
placed with stop price `p - 1.5·a` and target `p + 3·a` (stop distance =
ATR × 1.5, target distance = stop distance × 2.0), mirrored for SELL; in
particular entry 1.1000 with ATR 0.0010 yields stop 1.0985 and target
1.1030. -/
theorem C6_stop_take_profit :
    (∀ p a : ℚ, 0 < a →
      stopTakeProfit "BUY" p a = (p - 1.5 * a, p + 3.0 * a) ∧
      stopTakeProfit "SELL" p a = (p + 1.5 * a, p - 3.0 * a)) ∧
    stopTakeProfit "BUY" 1.1 0.001 = (1.0985, 1.1030) := by
  constructor
  · intro p a _
    constructor
    · simp only [stopTakeProfit]
      rw [if_pos strUpper_BUY]
      simp only [Prod.mk.injEq]
      constructor <;> ring
    · simp only [stopTakeProfit]
      rw [if_neg strUpper_SELL_ne_BUY]
      simp only [Prod.mk.injEq]
      constructor <;> ring
  · simp only [stopTakeProfit]
    rw [if_pos strUpper_BUY]
    norm_num

/-- Witness for C6 at entry 1, ATR 0.002. -/
theorem C6_stop_take_profit_w :
    (0 : ℚ) < 0.002 ∧ stopTakeProfit "BUY" 1 0.002 = (1 - 1.5 * 0.002, 1 + 3.0 * 0.002) := by
  exact ⟨by norm_num, (C6_stop_take_profit.1 1 0.002 (by norm_num)).1⟩

/-- Every property the registration code (lines 164-177) guarantees about a
trade it appends to `open_trades`. -/
def placedTrade (env : Env) (t : Trade) : Prop :=
  t.side = confirmSignal (env.signal t.instrument) (env.trendM15 t.instrument)
    (env.trendM5 t.instrument) ∧
  (t.side = "BUY" ∨ t.side = "SELL") ∧
  env.placeOrder t.instrument = some t.order_id ∧
  t.max_price = (if strUpper t.side = "BUY" then some t.entry_price else none) ∧
  t.min_price = (if strUpper t.side = "SELL" then some t.entry_price else none)

lemma processInstrument_newTrades (env : Env) (losses : ℕ) (acc : InstAcc) (inst : String)
    (t : Trade) (h : t ∈ (processInstrument env losses acc inst).newTrades) :
    t ∈ acc.newTrades ∨ placedTrade env t := by
  unfold processInstrument at h
  split at h
  · exact Or.inl h
  split at h
  · exact Or.inl h
  split at h
  · simp only [] at h
    split at h
    · split at h
      · exact Or.inl h
      · exact Or.inl h
    · exact Or.inl h
  · rename_i oid heq
    simp only [] at h
    split at h
    · rename_i hconf
      split at h
      · exact Or.inl h
      · simp only [List.mem_append, List.mem_singleton] at h
        rcases h with h | h
        · exact Or.inl h
        · subst h
          exact Or.inr ⟨rfl, hconf, heq, rfl, rfl⟩
    · exact Or.inl h

lemma instrument_fold_newTrades (env : Env) (losses : ℕ) (insts : List String)
    (acc : InstAcc) (t : Trade)
    (h : t ∈ (insts.foldl (processInstrument env losses) acc).newTrades) :
    t ∈ acc.newTrades ∨ placedTrade env t := by
  induction insts generalizing acc with
  | nil => exact Or.inl h
  | cons inst insts ih =>
    simp only [List.foldl_cons] at h
    rcases ih (processInstrument env losses acc inst) h with h1 | h1
    · exact processInstrument_newTrades env losses acc inst t h1
    · exact Or.inr h1

lemma iterate_ordersPlaced (env : Env) (s : BotState) (t : Trade)
    (h : t ∈ (iterate env s).2.ordersPlaced) : placedTrade env t := by
  unfold iterate at h
  split at h
  · simp [emptyLog] at h
  · split at h
    · simp [emptyLog] at h
    · split at h
      · simp [emptyLog] at h
      · simp only at h
        rcases instrument_fold_newTrades env _ env.instruments _ t h with h1 | h1
        · simp at h1
        · exact h1

/-- C4: the confirmed decision is BUY iff the base signal is BUY and both the
M15 and M5 trends are "up", SELL iff the base signal is SELL and both trends
are "down", and FLAT in every other case; every order the controller places
carries a non-FLAT confirmed decision as its side (so a FLAT confirmation
places no order); in particular base BUY with M15 up and M5 down confirms to
FLAT. -/
theorem C4_confirmation_gate :
    (∀ sig t15 t5 : String,
      (confirmSignal sig t15 t5 = "BUY" ↔ sig = "BUY" ∧ t15 = "up" ∧ t5 = "up") ∧
      (confirmSignal sig t15 t5 = "SELL" ↔ sig = "SELL" ∧ t15 = "down" ∧ t5 = "down") ∧
      (¬(sig = "BUY" ∧ t15 = "up" ∧ t5 = "up") →
        ¬(sig = "SELL" ∧ t15 = "down" ∧ t5 = "down") →
        confirmSignal sig t15 t5 = "FLAT")) ∧
    (∀ env s t, t ∈ (iterate env s).2.ordersPlaced →
      t.side = confirmSignal (env.signal t.instrument) (env.trendM15 t.instrument)
        (env.trendM5 t.instrument) ∧ t.side ≠ "FLAT") ∧
    confirmSignal "BUY" "up" "down" = "FLAT" := by
  refine ⟨?_, ?_, by decide⟩
  · intro sig t15 t5
    unfold confirmSignal
    split_ifs with h1 h2
    · refine ⟨by simp [h1], ?_, ?_⟩
      · constructor
        · intro hc; exact absurd hc (by decide)
        · intro hc; exact absurd (h1.1.symm.trans hc.1) (by decide)
      · intro hcon _; exact absurd h1 hcon
    · refine ⟨?_, by simp [h2], ?_⟩
      · constructor
        · intro hc; exact absurd hc (by decide)
        · intro hc; exact absurd hc h1
      · intro _ hcon; exact absurd h2 hcon
    · refine ⟨?_, ?_, fun _ _ => rfl⟩
      · constructor
        · intro hc; exact absurd hc (by decide)
        · intro hc; exact absurd hc h1
      · constructor
        · intro hc; exact absurd hc (by decide)
        · intro hc; exact absurd hc h2
  · intro env s t ht
    obtain ⟨hside, hbs, _, _, _⟩ := iterate_ordersPlaced env s t ht
    refine ⟨hside, ?_⟩
    rcases hbs with hb | hb <;> rw [hb] <;> decide

/-- A witness environment: one instrument, sufficient data, trending market,
base BUY signal confirmed by both higher timeframes, broker accepts the
order. -/
def envOrder : Env :=
  { day := 0, hour := 10, weekday := 2
    balanceReset := 10000, balanceCheck := 10000
    instruments := ["EUR_USD"]
    hasData := fun _ => true
    adx := fun _ => 30
    latestClose := fun _ => 1.1
    trendM15 := fun _ => "up"
    trendM5 := fun _ => "up"
    signal := fun _ => "BUY"
    atr := fun _ => 0.001
    positionSize := fun _ => 1000
    placeOrder := fun _ => some 1
    refetchClose := fun _ => none
    closeOk := fun _ => true }

/-- A fresh day state with no open trades. -/
def stateFresh : BotState :=
  { daily_trade_count := 0, consecutive_losses := 0,
    start_of_day_equity := some 10000, last_date := some 0, open_trades := [] }

/-- The trade `envOrder` causes the controller to register. -/
def tradeB : Trade :=
  { instrument := "EUR_USD", side := "BUY", entry_price := 1.1, units := 1000,
    order_id := 1, max_price := some 1.1, min_price := none,
    take_profit_price := 1.103 }

lemma string_BUY_ne_SELL : ("BUY" : String) ≠ "SELL" := by decide

lemma string_SELL_ne_BUY : ("SELL" : String) ≠ "BUY" := by decide

lemma envOrder_places : (iterate envOrder stateFresh).2.ordersPlaced = [tradeB] := by
  norm_num [iterate, afterReset, effectiveStartEquity, ddPct, processInstrument,
    confirmSignal, stopTakeProfit, strUpper_BUY, emptyLog, DAILY_DRAWDOWN_LIMIT_PCT,
    MAX_TRADES_PER_DAY, MAX_CONSECUTIVE_LOSSES, tradeB, envOrder, stateFresh,
    string_BUY_ne_SELL]

/-- Witness for C4: a concretely placed order carries the confirmed non-FLAT
decision. -/
theorem C4_confirmation_gate_w :
    tradeB ∈ (iterate envOrder stateFresh).2.ordersPlaced ∧
    tradeB.side = confirmSignal (envOrder.signal tradeB.instrument)
      (envOrder.trendM15 tradeB.instrument) (envOrder.trendM5 tradeB.instrument) ∧
    tradeB.side ≠ "FLAT" := by
  have hmem : tradeB ∈ (iterate envOrder stateFresh).2.ordersPlaced := by
    rw [envOrder_places]
    exact List.mem_singleton.mpr rfl
  exact ⟨hmem, C4_confirmation_gate.2.1 envOrder stateFresh tradeB hmem⟩

lemma afterReset_open (env : Env) (s : BotState) :
    (afterReset env s).open_trades = s.open_trades := by
  unfold afterReset
  split <;> rfl

/-- C2 (amended): when the daily drawdown gate trips
(`dd_pct ≤ -DAILY_DRAWDOWN_LIMIT_PCT`), the controller iteration stops at the
gate (`continue` on line 93): it opens no new trades AND skips open-trade
management entirely — neither the trailing-stop loop nor the aggregate
kill-switch runs in that iteration, and the open-trade list is returned
unchanged. -/
theorem C2_drawdown_gate_skips_iteration (env : Env) (s : BotState)
    (h : ddPct env s ≤ -DAILY_DRAWDOWN_LIMIT_PCT) :
    (iterate env s).2.ordersPlaced = [] ∧
    (iterate env s).2.ranTrailing = false ∧
    (iterate env s).2.ranKillSwitch = false ∧
    (iterate env s).1.open_trades = s.open_trades := by
  unfold iterate
  split
  · exact ⟨rfl, rfl, rfl, rfl⟩
  · split
    · exact ⟨rfl, rfl, rfl, rfl⟩
    · simp only []
      exact ⟨rfl, rfl, rfl, afterReset_open env s⟩

/-- The drawdown scenario: start-of-day equity 10000, current equity 9200,
limit 7.5 — `dd_pct = -8.0 ≤ -7.5`. -/
def envGate : Env := { envOrder with balanceCheck := 9200 }

/-- State with one open trade, so "existing trades" is non-vacuous. -/
def stateDD : BotState := { stateFresh with open_trades := [tradeB] }

/-- C2 counterexample: with start-of-day equity 10000 and current equity 9200
(limit 7.5, so the gate trips at `dd_pct = -8.0`) and an open trade present,
the iteration does NOT run the trailing-stop evaluation and does NOT run the
aggregate kill-switch, contradicting the claim that existing trades are still
managed in the same iteration. -/
theorem C2_counterexample :
    ddPct envGate stateDD = -8 ∧
    ddPct envGate stateDD ≤ -DAILY_DRAWDOWN_LIMIT_PCT ∧
    stateDD.open_trades ≠ [] ∧
    (iterate envGate stateDD).2.ranTrailing = false ∧
    (iterate envGate stateDD).2.ranKillSwitch = false := by
  have hdd : ddPct envGate stateDD = -8 := by
    norm_num [ddPct, effectiveStartEquity, afterReset, envGate, envOrder, stateDD, stateFresh]
  refine ⟨hdd, by rw [hdd]; norm_num [DAILY_DRAWDOWN_LIMIT_PCT], ?_, ?_, ?_⟩
  · simp [stateDD, stateFresh]
  · norm_num [iterate, envGate, envOrder, stateDD, stateFresh, ddPct,
      effectiveStartEquity, afterReset, emptyLog, DAILY_DRAWDOWN_LIMIT_PCT]
  · norm_num [iterate, envGate, envOrder, stateDD, stateFresh, ddPct,
      effectiveStartEquity, afterReset, emptyLog, DAILY_DRAWDOWN_LIMIT_PCT]

/-- Witness for C2 (amended) at the concrete dd scenario. -/
theorem C2_drawdown_gate_skips_iteration_w :
    ddPct envGate stateDD ≤ -DAILY_DRAWDOWN_LIMIT_PCT ∧
    (iterate envGate stateDD).2.ordersPlaced = [] ∧
    (iterate envGate stateDD).1.open_trades = stateDD.open_trades := by
  have h : ddPct envGate stateDD ≤ -DAILY_DRAWDOWN_LIMIT_PCT := by
    norm_num [ddPct, effectiveStartEquity, afterReset, envGate, envOrder, stateDD,
      stateFresh, DAILY_DRAWDOWN_LIMIT_PCT]
  exact ⟨h, (C2_drawdown_gate_skips_iteration envGate stateDD h).1,
         (C2_drawdown_gate_skips_iteration envGate stateDD h).2.2.2⟩

/-- One trade's contribution to `total_unrealized_loss` (lines 232-242). -/
def lossContrib (env : Env) (latest : String → Option ℚ) (t : Trade) : ℚ :=
  match trailPrice env latest t.instrument with
  | none => 0
  | some p =>
    let pnl := compute_unrealized_pnl t p 0.0001
    if pnl < 0 then pnl else 0

lemma foldl_add_eq_sum {α : Type} (f : α → ℚ) (l : List α) (a : ℚ) :
    l.foldl (fun acc x => acc + f x) a = a + (l.map f).sum := by
  induction l generalizing a with
  | nil => simp
  | cons x l ih => simp [ih, add_assoc]

lemma unrealizedLossSum_eq_contrib (env : Env) (latest : String → Option ℚ)
    (trades : List Trade) :
    unrealizedLossSum env latest trades =
      (trades.map (lossContrib env latest)).sum := by
  unfold unrealizedLossSum
  have hbody : ∀ (a : ℚ) (t : Trade),
      (match trailPrice env latest t.instrument with
       | none => a
       | some p =>
         let pnl := compute_unrealized_pnl t p 0.0001
         if pnl < 0 then a + pnl else a) = a + lossContrib env latest t := by
    intro a t
    unfold lossContrib
    cases trailPrice env latest t.instrument with
    | none => simp
    | some p =>
      simp only []
      split <;> simp
  calc trades.foldl _ 0
      = trades.foldl (fun acc t => acc + lossContrib env latest t) 0 := by
        congr 1
        funext a t
        exact hbody a t
    _ = 0 + (trades.map (lossContrib env latest)).sum := foldl_add_eq_sum _ trades 0
    _ = (trades.map (lossContrib env latest)).sum := zero_add _

lemma lossContrib_of_price (env : Env) (latest : String → Option ℚ) (t : Trade) (p : ℚ)
    (h : trailPrice env latest t.instrument = some p) :
    lossContrib env latest t = min (compute_unrealized_pnl t p 0.0001) 0 := by
  unfold lossContrib
  rw [h]
  simp only []
  rcases lt_or_ge (compute_unrealized_pnl t p 0.0001) 0 with hlt | hge
  · rw [if_pos hlt, min_eq_left hlt.le]
  · rw [if_neg (not_lt.mpr hge), min_eq_right hge]

/-- C3: the aggregate kill-switch fires when, and only when, the magnitude of
the sum of per-trade unrealized losses (gains excluded via `min _ 0`) is at
least `start_of_day_equity * (DAILY_DRAWDOWN_LIMIT_PCT / 100)`; when it
fires, every open trade is passed to `close_all_trades` and the surviving
open set is exactly the trades whose close failed (so they are retried the
next time the phase runs); when it does not fire, the open set is
unchanged; the open set never gains trades in this phase. -/
theorem C3_kill_switch (env : Env) (latest : String → Option ℚ) (e0 : ℚ)
    (trades : List Trade) (priceOf : Trade → ℚ)
    (hp : ∀ t ∈ trades, trailPrice env latest t.instrument = some (priceOf t)) :
    ((killSwitchPhase env latest e0 trades).2 = true ↔
      |(trades.map (fun t => min (compute_unrealized_pnl t (priceOf t) 0.0001) 0)).sum|
        ≥ e0 * (DAILY_DRAWDOWN_LIMIT_PCT / 100)) ∧
    ((killSwitchPhase env latest e0 trades).2 = true →
      (killSwitchPhase env latest e0 trades).1 = close_all_trades env.closeOk trades ∧
      (killSwitchPhase env latest e0 trades).1 =
        trades.filter (fun t => ! env.closeOk t)) ∧
    ((killSwitchPhase env latest e0 trades).2 = false →
      (killSwitchPhase env latest e0 trades).1 = trades) ∧
    (∀ t ∈ (killSwitchPhase env latest e0 trades).1, t ∈ trades) := by
  have hsum : unrealizedLossSum env latest trades =
      (trades.map (fun t => min (compute_unrealized_pnl t (priceOf t) 0.0001) 0)).sum := by
    rw [unrealizedLossSum_eq_contrib]
    congr 1
    exact List.map_congr_left (fun t ht => lossContrib_of_price env latest t _ (hp t ht))
  unfold killSwitchPhase
  rw [hsum]
  by_cases hcond :
      |(trades.map (fun t => min (compute_unrealized_pnl t (priceOf t) 0.0001) 0)).sum|
        ≥ e0 * (DAILY_DRAWDOWN_LIMIT_PCT / 100)
  · rw [if_pos hcond]
    refine ⟨by simp [hcond], fun _ => ⟨rfl, rfl⟩, by simp, ?_⟩
    intro t ht
    exact List.mem_of_mem_filter ht
  · rw [if_neg hcond]
    exact ⟨by simp [hcond], by simp, fun _ => rfl, fun t ht => ht⟩

/-- Witness data for C3: a single losing BUY trade, a broker that fails every
close, and a small start-of-day equity so the loss magnitude trips the
switch. -/
def envK : Env := { envOrder with closeOk := fun _ => false }

def latestK : String → Option ℚ := fun _ => some 0.9

def tradeL : Trade :=
  { instrument := "EUR_USD", side := "BUY", entry_price := 1, units := 100000,
    order_id := 2, max_price := some 1, min_price := none,
    take_profit_price := 1.1 }

/-- Witness for C3: the switch fires on a loss of magnitude 1 against limit
`10 * 7.5% = 0.75`, and the trade whose close failed stays open. -/
theorem C3_kill_switch_w :
    (∀ t ∈ [tradeL], trailPrice envK latestK t.instrument = some ((0.9 : ℚ))) ∧
    (killSwitchPhase envK latestK 10 [tradeL]).2 = true ∧
    (killSwitchPhase envK latestK 10 [tradeL]).1 = [tradeL] := by
  have hp : ∀ t ∈ [tradeL], trailPrice envK latestK t.instrument = some ((0.9 : ℚ)) := by
    intro t ht
    rw [List.mem_singleton] at ht
    subst ht
    rfl
  have hthm := C3_kill_switch envK latestK 10 [tradeL] (fun _ => 0.9) hp
  have hsum :
      |([tradeL].map (fun t => min (compute_unrealized_pnl t ((fun _ : Trade => (0.9 : ℚ)) t) 0.0001) 0)).sum|
        ≥ 10 * (DAILY_DRAWDOWN_LIMIT_PCT / 100) := by
    norm_num [compute_unrealized_pnl, tradeL, strUpper_BUY, DAILY_DRAWDOWN_LIMIT_PCT,
      min_def, abs_of_nonpos]
  have hfired := hthm.1.mpr hsum
  refine ⟨hp, hfired, ?_⟩
  rw [(hthm.2.1 hfired).2]
  simp [tradeL, envK, envOrder]

lemma trailingTrade_closeReq (env : Env) (latest : String → Option ℚ) (losses : ℕ)
    (t tr : Trade) (pr : ℚ)
    (h : (tr, pr) ∈ (trailingTrade env latest losses t).closeReq) :
    (strUpper tr.side = "BUY" →
      pr - tr.entry_price > (tr.take_profit_price - tr.entry_price) * 0.35) ∧
    (strUpper tr.side = "SELL" →
      tr.entry_price - pr > (tr.entry_price - tr.take_profit_price) * 0.5) := by
  unfold trailingTrade at h
  cases hpr0 : trailPrice env latest t.instrument with
  | none => rw [hpr0] at h; exact absurd h (List.not_mem_nil _)
  | some cp =>
    rw [hpr0] at h
    simp only [] at h
    by_cases hbuy : strUpper t.side = "BUY"
    · rw [if_pos hbuy] at h
      cases hmax : t.max_price with
      | none => rw [hmax] at h; exact absurd h (List.not_mem_nil _)
      | some m =>
        rw [hmax] at h
        simp only [] at h
        by_cases hth : cp - t.entry_price > (t.take_profit_price - t.entry_price) * 0.35
        · rw [if_pos hth] at h
          by_cases hlv : cp < (if cp > m then cp else m) - TRAILING_STOP_PIPS * 0.0001
          · rw [if_pos hlv] at h
            simp only [apply_ite TrailOut.closeReq, ite_self, List.mem_singleton,
              Prod.mk.injEq] at h
            obtain ⟨htr, hpr⟩ := h
            subst htr
            subst hpr
            refine ⟨fun _ => hth, fun hsell => ?_⟩
            exact absurd (hbuy.symm.trans hsell) (by decide)
          · rw [if_neg hlv] at h
            exact absurd h (List.not_mem_nil _)
        · rw [if_neg hth] at h
          exact absurd h (List.not_mem_nil _)
    · rw [if_neg hbuy] at h
      by_cases hsell : strUpper t.side = "SELL"
      · rw [if_pos hsell] at h
        cases hmin : t.min_price with
        | none => rw [hmin] at h; exact absurd h (List.not_mem_nil _)
        | some m =>
          rw [hmin] at h
          simp only [] at h
          by_cases hth : t.entry_price - cp > (t.entry_price - t.take_profit_price) * 0.5
          · rw [if_pos hth] at h
            by_cases hlv : cp > (if cp < m then cp else m) + TRAILING_STOP_PIPS * 0.0001
            · rw [if_pos hlv] at h
              simp only [apply_ite TrailOut.closeReq, ite_self, List.mem_singleton,
                Prod.mk.injEq] at h
              obtain ⟨htr, hpr⟩ := h
              subst htr
              subst hpr
              refine ⟨fun hb => ?_, fun _ => hth⟩
              exact absurd (hsell.symm.trans hb) (by decide)
            · rw [if_neg hlv] at h
              exact absurd h (List.not_mem_nil _)
          · rw [if_neg hth] at h
            exact absurd h (List.not_mem_nil _)
      · rw [if_neg hsell] at h
        exact absurd h (List.not_mem_nil _)

lemma trailingPhase_closeReq (env : Env) (latest : String → Option ℚ) :
    ∀ (losses : ℕ) (trades : List Trade) (tr : Trade) (pr : ℚ),
      (tr, pr) ∈ (trailingPhase env latest losses trades).closeReq →
      ∃ t ∈ trades, ∃ l, (tr, pr) ∈ (trailingTrade env latest l t).closeReq := by
  intro losses trades
  induction trades generalizing losses with
  | nil => intro tr pr h; simp [trailingPhase] at h
  | cons t ts ih =>
    intro tr pr h
    simp only [trailingPhase, List.mem_append] at h
    rcases h with h | h
    · exact ⟨t, List.mem_cons_self t ts, losses, h⟩
    · obtain ⟨u, hu, l, hl⟩ := ih _ tr pr h
      exact ⟨u, List.mem_cons_of_mem t hu, l, hl⟩

/-- C5: no trailing-stop close request is ever issued before the trade's
favorable movement from entry strictly exceeds the activation fraction of the
planned take-profit distance — fraction `0.35` for BUY trades and `0.5` for
SELL trades (lines 194-195 and 213-214 of `main_bot.py`). -/
theorem C5_trailing_activation (env : Env) (s : BotState) (tr : Trade) (pr : ℚ)
    (h : (tr, pr) ∈ (iterate env s).2.trailingCloseReqs) :
    (strUpper tr.side = "BUY" →
      pr - tr.entry_price > (tr.take_profit_price - tr.entry_price) * 0.35) ∧
    (strUpper tr.side = "SELL" →
      tr.entry_price - pr > (tr.entry_price - tr.take_profit_price) * 0.5) := by
  unfold iterate at h
  split at h
  · simp [emptyLog] at h
  · split at h
    · simp [emptyLog] at h
    · simp only [] at h
      split at h
      · simp [emptyLog] at h
      · simp only [] at h
        obtain ⟨t, _, l, hl⟩ := trailingPhase_closeReq env _ _ _ tr pr h
        exact trailingTrade_closeReq env _ l t tr pr hl

/-- Witness data for C5: no instruments fetched this iteration (prices come
from the single-bar refetch), one BUY trade past its activation threshold
whose trailing level has been crossed. -/
def envT : Env :=
  { envOrder with instruments := [],
                  refetchClose := fun _ => some 1.05,
                  closeOk := fun _ => false }

def tradeT : Trade :=
  { instrument := "EUR_USD", side := "BUY", entry_price := 1, units := 1000,
    order_id := 3, max_price := some 1.08, min_price := none,
    take_profit_price := 1.1 }

def stateT : BotState := { stateFresh with open_trades := [tradeT] }

lemma envT_closeReq :
    (iterate envT stateT).2.trailingCloseReqs = [(tradeT, (1.05 : ℚ))] := by
  norm_num [iterate, afterReset, effectiveStartEquity, ddPct, emptyLog,
    DAILY_DRAWDOWN_LIMIT_PCT, TRAILING_STOP_PIPS, trailingPhase, trailingTrade,
    trailPrice, close_all_trades, strUpper_BUY, envT, envOrder, stateT, stateFresh, tradeT]

/-- Witness for C5: the concretely issued close request satisfies the BUY
activation bound `0.05 > 0.035`. -/
theorem C5_trailing_activation_w :
    (tradeT, (1.05 : ℚ)) ∈ (iterate envT stateT).2.trailingCloseReqs ∧
    (1.05 : ℚ) - tradeT.entry_price >
      (tradeT.take_profit_price - tradeT.entry_price) * 0.35 := by
  have hmem : (tradeT, (1.05 : ℚ)) ∈ (iterate envT stateT).2.trailingCloseReqs := by
    rw [envT_closeReq]
    exact List.mem_singleton.mpr rfl
  exact ⟨hmem, (C5_trailing_activation envT stateT tradeT 1.05 hmem).1 strUpper_BUY⟩

/-- The per-side shape of a registered trade: a BUY trade carries
`max_price = some _` and `min_price = none`; a SELL trade the reverse. -/
def wfTrade (t : Trade) : Prop :=
  (t.side = "BUY" ∧ t.max_price.isSome = true ∧ t.min_price = none) ∨
  (t.side = "SELL" ∧ t.min_price.isSome = true ∧ t.max_price = none)

lemma trailingTrade_wf (env : Env) (latest : String → Option ℚ) (losses : ℕ) (t : Trade)
    (hw : wfTrade t) :
    (trailingTrade env latest losses t).tsError = false ∧
    ∀ t', (trailingTrade env latest losses t).kept = some t' → wfTrade t' := by
  rcases hw with ⟨hside, hmax, hmin⟩ | ⟨hside, hmin, hmax⟩
  · have hbuy : strUpper t.side = "BUY" := by rw [hside]; rfl
    obtain ⟨m, hm⟩ := Option.isSome_iff_exists.mp hmax
    unfold trailingTrade
    cases htp : trailPrice env latest t.instrument with
    | none =>
      refine ⟨rfl, fun t' h' => ?_⟩
      obtain rfl := Option.some_inj.mp h'
      exact Or.inl ⟨hside, hmax, hmin⟩
    | some cp =>
      simp only []
      rw [if_pos hbuy, hm]
      simp only []
      repeat' split
      all_goals refine ⟨rfl, fun t' h' => ?_⟩
      all_goals
        first
          | exact (Option.noConfusion h')
          | (obtain rfl := Option.some_inj.mp h'
             first
               | exact Or.inl ⟨hside, rfl, hmin⟩
               | exact Or.inl ⟨hside, hmax, hmin⟩)
  · have hsell1 : strUpper t.side = "SELL" := by rw [hside]; rfl
    have hnb : ¬ strUpper t.side = "BUY" := by rw [hside]; decide
    obtain ⟨m, hm⟩ := Option.isSome_iff_exists.mp hmin
    unfold trailingTrade
    cases htp : trailPrice env latest t.instrument with
    | none =>
      refine ⟨rfl, fun t' h' => ?_⟩
      obtain rfl := Option.some_inj.mp h'
      exact Or.inr ⟨hside, hmin, hmax⟩
    | some cp =>
      simp only []
      rw [if_neg hnb, if_pos hsell1, hm]
      simp only []
      repeat' split
      all_goals refine ⟨rfl, fun t' h' => ?_⟩
      all_goals
        first
          | exact (Option.noConfusion h')
          | (obtain rfl := Option.some_inj.mp h'
             first
               | exact Or.inr ⟨hside, rfl, hmax⟩
               | exact Or.inr ⟨hside, hmin, hmax⟩)

lemma trailingPhase_wf (env : Env) (latest : String → Option ℚ) :
    ∀ (losses : ℕ) (trades : List Trade), (∀ t ∈ trades, wfTrade t) →
      (trailingPhase env latest losses trades).tsError = false ∧
      ∀ t' ∈ (trailingPhase env latest losses trades).trades, wfTrade t' := by
  intro losses trades
  induction trades generalizing losses with
  | nil => intro _; exact ⟨rfl, fun t' h' => absurd h' (List.not_mem_nil _)⟩
  | cons t ts ih =>
    intro hall
    have hw := hall t (List.mem_cons_self t ts)
    have htt := trailingTrade_wf env latest losses t hw
    have hrest := ih (trailingTrade env latest losses t).losses
      (fun u hu => hall u (List.mem_cons_of_mem t hu))
    constructor
    · simp only [trailingPhase, htt.1, hrest.1, Bool.or_self]
    · intro t' h'
      simp only [trailingPhase, List.mem_append] at h'
      rcases h' with h' | h'
      · rcases hk : (trailingTrade env latest losses t).kept with _ | u
        · rw [hk] at h'; simp [Option.toList] at h'
        · rw [hk] at h'
          simp only [Option.toList, List.mem_singleton] at h'
          subst h'
          exact htt.2 t' hk
      · exact hrest.2 t' h'

lemma killSwitchPhase_subset (env : Env) (latest : String → Option ℚ) (e0 : ℚ)
    (trades : List Trade) :
    ∀ t ∈ (killSwitchPhase env latest e0 trades).1, t ∈ trades := by
  intro t ht
  unfold killSwitchPhase at ht
  split at ht
  · exact List.mem_of_mem_filter ht
  · exact ht

lemma placedTrade_wf (env : Env) (t : Trade) (h : placedTrade env t) : wfTrade t := by
  obtain ⟨_, hbs, _, hmax, hmin⟩ := h
  rcases hbs with hb | hb
  · refine Or.inl ⟨hb, ?_, ?_⟩
    · rw [hmax, hb, strUpper_BUY]
      simp
    · rw [hmin, hb, strUpper_BUY]
      simp [string_BUY_ne_SELL]
  · refine Or.inr ⟨hb, ?_, ?_⟩
    · rw [hmin, hb, strUpper_SELL]
      simp
    · rw [hmax, hb, strUpper_SELL]
      simp [string_SELL_ne_BUY]

/-- C10: every trade the controller registers has `min_price = none` when its
side is BUY and `max_price = none` when its side is SELL; on any iteration
whose input open trades all have that per-side shape, the trailing-stop loop
never compares a price against a `None` field (`tsError = false`, the BUY
branch touching only `max_price` and the SELL branch only `min_price`), and
every output open trade keeps the shape. -/
theorem C10_none_fields (env : Env) (s : BotState)
    (h : ∀ t ∈ s.open_trades, wfTrade t) :
    (∀ t ∈ (iterate env s).2.ordersPlaced, wfTrade t) ∧
    (iterate env s).2.tsError = false ∧
    (∀ t ∈ (iterate env s).1.open_trades, wfTrade t) := by
  refine ⟨fun t ht => placedTrade_wf env t (iterate_ordersPlaced env s t ht), ?_⟩
  unfold iterate
  split
  · exact ⟨rfl, h⟩
  · split
    · exact ⟨rfl, h⟩
    · simp only []
      split
      · constructor
        · rfl
        · rw [afterReset_open]
          exact h
      · simp only []
        have hplaced : ∀ t ∈ (env.instruments.foldl
            (processInstrument env (afterReset env s).consecutive_losses)
            { count := (afterReset env s).daily_trade_count, latest := fun _ => none,
              newTrades := [] }).newTrades, wfTrade t := by
          intro t ht
          rcases instrument_fold_newTrades env _ env.instruments _ t ht with h1 | h1
          · simp at h1
          · exact placedTrade_wf env t h1
        have hopen1 : ∀ t ∈ (afterReset env s).open_trades ++ (env.instruments.foldl
            (processInstrument env (afterReset env s).consecutive_losses)
            { count := (afterReset env s).daily_trade_count, latest := fun _ => none,
              newTrades := [] }).newTrades, wfTrade t := by
          intro t ht
          rcases List.mem_append.mp ht with h1 | h1
          · rw [afterReset_open] at h1
            exact h t h1
          · exact hplaced t h1
        have hph := trailingPhase_wf env
          (env.instruments.foldl
            (processInstrument env (afterReset env s).consecutive_losses)
            { count := (afterReset env s).daily_trade_count, latest := fun _ => none,
              newTrades := [] }).latest
          (afterReset env s).consecutive_losses _ hopen1
        refine ⟨hph.1, ?_⟩
        intro t ht
        exact hph.2 t (killSwitchPhase_subset env _ _ _ t ht)

/-- Witness for C10 at the trailing-stop scenario state. -/
theorem C10_none_fields_w :
    (∀ t ∈ stateT.open_trades, wfTrade t) ∧
    (iterate envT stateT).2.tsError = false := by
  have hwf : ∀ t ∈ stateT.open_trades, wfTrade t := by
    intro t ht
    simp only [stateT, stateFresh, List.mem_singleton] at ht
    subst ht
    exact Or.inl ⟨rfl, rfl, rfl⟩
  exact ⟨hwf, (C10_none_fields envT stateT hwf).2.1⟩

/-- Favorable-direction order on optional extreme prices: both absent, or
both present and non-decreasing. -/
def extLe : Option ℚ → Option ℚ → Prop
  | some a, some b => a ≤ b
  | none, none => True
  | _, _ => False

lemma extLe_refl (o : Option ℚ) : extLe o o := by
  cases o with
  | none => trivial
  | some a => exact le_refl a

lemma extLe_trans (o1 o2 o3 : Option ℚ) (h1 : extLe o1 o2) (h2 : extLe o2 o3) :
    extLe o1 o3 := by
  cases o1 <;> cases o2 <;> cases o3 <;> simp only [extLe] at * <;> try trivial
  exact le_trans h1 h2

lemma extLe_some_some (o o' : Option ℚ) (h : extLe o o') :
    ∀ a b, o = some a → o' = some b → a ≤ b := by
  intro a b ha hb
  subst ha
  subst hb
  exact h

lemma extLe_some_of_eq (o : Option ℚ) (m : ℚ) (h : o = some m) : extLe o (some m) := by
  rw [h]
  exact le_refl m

lemma extLe_some_of_lt (o : Option ℚ) (m cp : ℚ) (h : o = some m) (hlt : cp > m) :
    extLe o (some cp) := by
  rw [h]
  exact le_of_lt hlt

lemma extLe_rev_of_eq (o : Option ℚ) (m : ℚ) (h : o = some m) : extLe (some m) o := by
  rw [h]
  exact le_refl m

lemma extLe_rev_of_lt (o : Option ℚ) (m cp : ℚ) (h : o = some m) (hlt : cp < m) :
    extLe (some cp) o := by
  rw [h]
  exact le_of_lt hlt

/-- How the trailing-stop body relates a surviving trade to its previous
version: identity and side unchanged, `max_price` moved (weakly) up,
`min_price` moved (weakly) down. -/
def stepRel (t t' : Trade) : Prop :=
  t'.order_id = t.order_id ∧ t'.side = t.side ∧
  extLe t.max_price t'.max_price ∧ extLe t'.min_price t.min_price

lemma stepRel_refl (t : Trade) : stepRel t t :=
  ⟨rfl, rfl, extLe_refl _, extLe_refl _⟩

lemma stepRel_trans (t u t' : Trade) (h1 : stepRel t u) (h2 : stepRel u t') :
    stepRel t t' :=
  ⟨h2.1.trans h1.1, h2.2.1.trans h1.2.1,
   extLe_trans _ _ _ h1.2.2.1 h2.2.2.1, extLe_trans _ _ _ h2.2.2.2 h1.2.2.2⟩

lemma trailingTrade_rel (env : Env) (latest : String → Option ℚ) (losses : ℕ) (t : Trade) :
    ∀ t', (trailingTrade env latest losses t).kept = some t' → stepRel t t' := by
  unfold trailingTrade
  cases htp : trailPrice env latest t.instrument with
  | none =>
    intro t' h'
    obtain rfl := Option.some_inj.mp h'
    exact stepRel_refl t
  | some cp =>
    simp only []
    repeat' split
    all_goals intro t' h'
    all_goals
      first
        | exact (Option.noConfusion h')
        | (obtain rfl := Option.some_inj.mp h'
           first
             | exact stepRel_refl t
             | (refine ⟨rfl, rfl, ?_, ?_⟩ <;>
                 first
                   | exact extLe_refl _
                   | exact extLe_some_of_eq _ _ (by assumption)
                   | exact extLe_some_of_lt _ _ _ (by assumption) (by assumption)
                   | exact extLe_rev_of_eq _ _ (by assumption)
                   | exact extLe_rev_of_lt _ _ _ (by assumption) (by assumption)))

lemma trailingPhase_rel (env : Env) (latest : String → Option ℚ) :
    ∀ (losses : ℕ) (trades : List Trade) (t' : Trade),
      t' ∈ (trailingPhase env latest losses trades).trades →
      ∃ t ∈ trades, stepRel t t' := by
  intro losses trades
  induction trades generalizing losses with
  | nil => intro t' h'; simp [trailingPhase] at h'
  | cons t ts ih =>
    intro t' h'
    simp only [trailingPhase, List.mem_append] at h'
    rcases h' with h' | h'
    · rcases hk : (trailingTrade env latest losses t).kept with _ | u
      · rw [hk] at h'; simp [Option.toList] at h'
      · rw [hk] at h'
        simp only [Option.toList, List.mem_singleton] at h'
        subst h'
        exact ⟨t, List.mem_cons_self t ts, trailingTrade_rel env latest losses t t' hk⟩
    · obtain ⟨u, hu, hrel⟩ := ih _ t' h'
      exact ⟨u, List.mem_cons_of_mem t hu, hrel⟩

lemma iterate_rel (env : Env) (s : BotState) (t' : Trade)
    (ht' : t' ∈ (iterate env s).1.open_trades) :
    (∃ t ∈ s.open_trades, stepRel t t') ∨
    (∃ inst, env.placeOrder inst = some t'.order_id) := by
  unfold iterate at ht'
  split at ht'
  · exact Or.inl ⟨t', ht', stepRel_refl t'⟩
  · split at ht'
    · exact Or.inl ⟨t', ht', stepRel_refl t'⟩
    · simp only [] at ht'
      split at ht'
      · rw [afterReset_open] at ht'
        exact Or.inl ⟨t', ht', stepRel_refl t'⟩
      · simp only [] at ht'
        have h2 := killSwitchPhase_subset env _ _ _ t' ht'
        obtain ⟨u, hu, hrel⟩ := trailingPhase_rel env _ _ _ t' h2
        rcases List.mem_append.mp hu with h3 | h3
        · rw [afterReset_open] at h3
          exact Or.inl ⟨u, h3, hrel⟩
        · rcases instrument_fold_newTrades env _ env.instruments _ u h3 with h4 | h4
          · simp at h4
          · obtain ⟨_, _, hpl, _, _⟩ := h4
            exact Or.inr ⟨u.instrument, by rw [hrel.1]; exact hpl⟩

/-- Pairwise-distinct broker order ids. -/
def idsDistinct (ts : List Trade) : Prop :=
  ts.Pairwise (fun a b => a.order_id ≠ b.order_id)

lemma eq_of_mem_idsDistinct (ts : List Trade) (hd : idsDistinct ts) (a b : Trade)
    (ha : a ∈ ts) (hb : b ∈ ts) (hid : a.order_id = b.order_id) : a = b := by
  induction ts with
  | nil => simp at ha
  | cons x ts ih =>
    rcases List.mem_cons.mp ha with h1 | h1 <;> rcases List.mem_cons.mp hb with h2 | h2
    · rw [h1, h2]
    · subst h1
      exact absurd hid ((List.pairwise_cons.mp hd).1 b h2)
    · subst h2
      exact absurd hid.symm ((List.pairwise_cons.mp hd).1 a h1)
    · exact ih (List.pairwise_cons.mp hd).2 h1 h2

lemma run_rel (envs : ℕ → Env) (s0 : BotState) (n : ℕ) :
    ∀ (m : ℕ), n ≤ m → ∀ t', t' ∈ (run envs s0 m).open_trades →
      (∃ t ∈ (run envs s0 n).open_trades, stepRel t t') ∨
      (∃ k inst, n ≤ k ∧ k < m ∧ (envs k).placeOrder inst = some t'.order_id) := by
  intro m
  induction m with
  | zero =>
    intro hnm t' ht'
    have hn0 : n = 0 := Nat.le_zero.mp hnm
    subst hn0
    exact Or.inl ⟨t', ht', stepRel_refl t'⟩
  | succ m ih =>
    intro hnm t' ht'
    rcases Nat.lt_or_ge n (m + 1) with hlt | hge
    · have hnm' : n ≤ m := Nat.lt_succ_iff.mp hlt
      rcases iterate_rel (envs m) (run envs s0 m) t' ht' with ⟨u, hu, hrel⟩ | ⟨inst, hpl⟩
      · rcases ih hnm' u hu with ⟨t, htm, hrel2⟩ | ⟨k, inst, h1, h2, h3⟩
        · exact Or.inl ⟨t, htm, stepRel_trans t u t' hrel2 hrel⟩
        · exact Or.inr ⟨k, inst, h1, Nat.lt_succ_of_lt h2, by rw [hrel.1]; exact h3⟩
      · exact Or.inr ⟨m, inst, hnm', Nat.lt_succ_self m, hpl⟩
    · have hn : n = m + 1 := Nat.le_antisymm hnm hge
      subst hn
      exact Or.inl ⟨t', ht', stepRel_refl t'⟩

/-- C9: across any number of controller iterations, a trade identified by its
broker order id keeps its side, its `max_price` never decreases and its
`min_price` never increases — the favorable-extreme field is monotonic in the
favorable direction for the life of the trade (given that order ids in the
initial snapshot are distinct and the broker never re-issues one of those
ids). -/
theorem C9_extreme_monotone (envs : ℕ → Env) (s0 : BotState) (n m : ℕ)
    (t t' : Trade)
    (hdist : idsDistinct (run envs s0 n).open_trades)
    (hfresh : ∀ k inst id, (envs k).placeOrder inst = some id →
      ∀ u ∈ (run envs s0 n).open_trades, u.order_id ≠ id)
    (hnm : n ≤ m)
    (ht : t ∈ (run envs s0 n).open_trades)
    (ht' : t' ∈ (run envs s0 m).open_trades)
    (hid : t'.order_id = t.order_id) :
    t'.side = t.side ∧
    (∀ a b, t.max_price = some a → t'.max_price = some b → a ≤ b) ∧
    (∀ a b, t.min_price = some a → t'.min_price = some b → b ≤ a) := by
  rcases run_rel envs s0 n m hnm t' ht' with ⟨u, hu, hrel⟩ | ⟨k, inst, _, _, hpl⟩
  · have huid : u.order_id = t.order_id := by rw [← hrel.1]; exact hid
    have hut : u = t := eq_of_mem_idsDistinct _ hdist u t hu ht huid
    subst hut
    exact ⟨hrel.2.1, extLe_some_some _ _ hrel.2.2.1,
      fun a b ha hb => extLe_some_some _ _ hrel.2.2.2 b a hb ha⟩
  · exact absurd hid.symm (hfresh k inst t'.order_id hpl t ht)

/-- Witness environments for C9: identical iterations outside trading hours,
so the state is carried through unchanged. -/
def envsW : ℕ → Env := fun _ => { envOrder with hour := 5 }

lemma runW_one : run envsW stateT 1 = stateT := by
  show (iterate (envsW 0) stateT).1 = stateT
  unfold iterate
  rw [if_pos]
  left
  show (envsW 0).hour < 6
  norm_num [envsW, envOrder]

/-- Witness for C9 across one (gated) iteration: the trade survives with the
same side and a non-decreased `max_price`. -/
theorem C9_extreme_monotone_w :
    idsDistinct (run envsW stateT 0).open_trades ∧
    tradeT ∈ (run envsW stateT 1).open_trades ∧
    tradeT.side = tradeT.side ∧
    (∀ a b, tradeT.max_price = some a → tradeT.max_price = some b → a ≤ b) := by
  have hdist : idsDistinct (run envsW stateT 0).open_trades := by
    show idsDistinct stateT.open_trades
    simp [idsDistinct, stateT, stateFresh]
  have ht : tradeT ∈ (run envsW stateT 0).open_trades := by
    show tradeT ∈ stateT.open_trades
    simp [stateT, stateFresh]
  have ht1 : tradeT ∈ (run envsW stateT 1).open_trades := by
    rw [runW_one]
    simp [stateT, stateFresh]
  have hfresh : ∀ k inst id, (envsW k).placeOrder inst = some id →
      ∀ u ∈ (run envsW stateT 0).open_trades, u.order_id ≠ id := by
    intro k inst id hpl u hu
    have hid1 : id = 1 := by
      have : (some 1 : Option ℕ) = some id := hpl
      exact (Option.some_inj.mp this).symm
    have hut : u = tradeT := by
      have hu0 : u ∈ stateT.open_trades := hu
      simp [stateT, stateFresh] at hu0
      exact hu0
    rw [hut, hid1]
    show (3 : ℕ) ≠ 1
    decide
  have hmain := C9_extreme_monotone envsW stateT 0 1 tradeT tradeT hdist hfresh
    (Nat.zero_le 1) ht ht1 rfl
  exact ⟨hdist, ht1, hmain.1, hmain.2.1⟩
